import Mathlib

/-!
# Verification of the chat-app server (server.js)

A shallow embedding of the core server logic of `src/server.js`:
the message data model, the two-tier history endpoint
(GET /api/rooms/:roomId/messages), the websocket room handlers
(join / leave / chat), the room-consumer registry, the token
authentication paths, the logout (revocation) endpoint, room creation,
and the durable-storage consumer.  All definitions are translated from
the JavaScript source; theorems settle the specification claims.
-/

namespace ChatApp

/-- A chat message as constructed by the server
(server.js lines 637-643, 680-686, 722-730; message ids are uuid
strings, timestamps are `Date.now()` milliseconds). -/
structure Msg where
  id : String
  type : String
  roomId : String
  content : String
  userId : String
  username : String
  timestamp : Nat
deriving DecidableEq, Repr

/-- A message paired with the read-time provenance tag that the history
endpoint attaches (`source: 'redis'` or `source: 'mongodb'`,
server.js lines 291, 306, 314, 324, 347, 360). -/
structure TMsg where
  m : Msg
  src : String
deriving DecidableEq, Repr

/-! ## Stable sort by a Nat key, descending

`messages.sort((a, b) => b.timestamp - a.timestamp)` in JavaScript is a
stable sort (ECMAScript 2019 and later, hence Node 18): the output is the
unique reordering that is sorted by the comparator and keeps elements that
compare equal in their original relative order.  An insertion sort that
inserts an element in front of the first element whose key is not larger
realises exactly that specification. -/

/-- Insert `a` in front of the first element whose key is less than or
equal to the key of `a` (stable: among equal keys, `a`, which comes
earlier in the input, ends up first). -/
def ordInsert (key : α → Nat) (a : α) : List α → List α
  | [] => [a]
  | b :: l => if key b ≤ key a then a :: b :: l else b :: ordInsert key a l

/-- Stable insertion sort, descending by `key`: the model of
`Array.prototype.sort` with comparator `(a, b) => key(b) - key(a)`. -/
def sortKeyDesc (key : α → Nat) : List α → List α
  | [] => []
  | a :: l => ordInsert key a (sortKeyDesc key l)

/-! ## Minimum / maximum timestamp helpers

`Math.min(...messages.map(m => m.timestamp))` and `Math.max(...)` on a
nonempty page (server.js lines 368-369). -/

/-- Minimum of the keys of a list (`none` on the empty list). -/
def minKey (key : α → Nat) : List α → Option Nat
  | [] => none
  | a :: l =>
    some (match minKey key l with
          | none => key a
          | some b => min (key a) b)

/-- Maximum of the keys of a list (`none` on the empty list). -/
def maxKey (key : α → Nat) : List α → Option Nat
  | [] => none
  | a :: l =>
    some (match maxKey key l with
          | none => key a
          | some b => max (key a) b)

/-! ## The history endpoint (server.js lines 267-384)

`GET /api/rooms/:roomId/messages?limit&before&after&source`.  The Redis
hot cache for a room is the list stored at `chat-history:roomId`, most
recent first; the MongoDB store is the list of archived records in
insertion order.  `redis.lrange(key, 0, n - 1)` returns the first `n`
elements; a MongoDB `find(query).sort(timestamp descending).limit(n)`
is modelled as a stable descending sort of the matching records followed
by `take n` (MongoDB leaves the relative order of equal timestamps
unspecified; insertion order is one admissible refinement). -/

/-- `MAX_MESSAGES_PER_ROOM` (server.js line 121). -/
def MAX_MESSAGES_PER_ROOM : Nat := 50

/-- `Math.min(parseInt(limit) || MAX_MESSAGES_PER_ROOM, 100)`
(server.js line 278): an absent or unparsable limit is `none`; note that
an explicit `limit=0` parses to `0`, which is falsy, hence also falls
back to the default. -/
def parsedLimit (limitQ : Option Nat) : Nat :=
  match limitQ with
  | none => min MAX_MESSAGES_PER_ROOM 100
  | some n => min (if n = 0 then MAX_MESSAGES_PER_ROOM else n) 100

/-- `before ? parseInt(before) : null` followed by the truthiness tests
`if (parsedBefore)` (server.js lines 279-280, 297-298, 317): a cursor
equal to `0` is falsy and behaves as an absent cursor. -/
def parsedCursor (q : Option Nat) : Option Nat :=
  match q with
  | none => none
  | some n => if n = 0 then none else some n

/-- `$lt` filter of an optional `before` cursor. -/
def beforeOk (pb : Option Nat) (m : Msg) : Bool :=
  match pb with
  | none => true
  | some b => decide (m.timestamp < b)

/-- `$gt` filter of an optional `after` cursor. -/
def afterOk (pa : Option Nat) (m : Msg) : Bool :=
  match pa with
  | none => true
  | some a => decide (a < m.timestamp)

/-- `Message.find(query).sort(timestamp descending).limit(n).lean()`. -/
def mongoFind (store : List Msg) (pred : Msg → Bool) (n : Nat) : List Msg :=
  (sortKeyDesc Msg.timestamp (store.filter pred)).take n

/-- Tag a list of messages with a provenance source
(`messages.map(msg => ({ ...msg, source }))`). -/
def tagAll (src : String) (l : List Msg) : List TMsg :=
  l.map (fun m => ⟨m, src⟩)

/-- The `messages` list assembled by the endpoint before the final sort
(server.js lines 283-362), by source mode:
redis-only (lines 286-292), mongodb-only (lines 295-307), and the
combined default (lines 310-361) with its four sub-cases. -/
def historyMessages (cache store : List Msg) (roomId : String) (pl : Nat)
    (pb pa : Option Nat) (src : Option String) : List TMsg :=
  if src = some "redis" then
    sortKeyDesc (fun tm => tm.m.timestamp) (tagAll "redis" (cache.take pl))
  else if src = some "mongodb" then
    tagAll "mongodb"
      (mongoFind store
        (fun m => m.roomId == roomId && beforeOk pb m && afterOk pa m) pl)
  else
    match pb with
    | some b =>
      tagAll "mongodb"
        (mongoFind store
          (fun m => m.roomId == roomId && decide (m.timestamp < b)) pl)
    | none =>
      let rm := tagAll "redis" (cache.take pl)
      if pl ≤ rm.length then rm.take pl
      else
        match rm.getLast? with
        | some oldest =>
          rm ++ tagAll "mongodb"
            (mongoFind store
              (fun m => m.roomId == roomId &&
                        decide (m.timestamp < oldest.m.timestamp))
              (pl - rm.length))
        | none =>
          tagAll "mongodb"
            (mongoFind store (fun m => m.roomId == roomId && afterOk pa m) pl)

/-- Pagination metadata (server.js lines 371-379). -/
structure Pagination where
  count : Nat
  hasMore : Bool
  oldest : Option Nat
  newest : Option Nat
deriving DecidableEq, Repr

/-- The JSON body returned by the endpoint. -/
structure HistoryResult where
  messages : List TMsg
  pagination : Pagination
deriving DecidableEq, Repr

/-- The endpoint body after the room-existence check: assemble the
per-mode message list, re-sort by timestamp descending (line 365), and
attach pagination metadata (lines 367-379). -/
def historyRead (cache store : List Msg) (roomId : String)
    (limitQ beforeQ afterQ : Option Nat) (src : Option String) :
    HistoryResult :=
  let pl := parsedLimit limitQ
  let pb := parsedCursor beforeQ
  let pa := parsedCursor afterQ
  let msgs := historyMessages cache store roomId pl pb pa src
  let sorted := sortKeyDesc (fun tm => tm.m.timestamp) msgs
  { messages := sorted
    pagination :=
      { count := sorted.length
        hasMore := decide (sorted.length = pl)
        oldest := minKey (fun tm => tm.m.timestamp) sorted
        newest := maxKey (fun tm => tm.m.timestamp) sorted } }

/-! ## Token authority (server.js lines 136-189, 389-406)

A token is modelled as its decoded payload together with the secret it
was signed with; `jwt.verify(token, SECRET)` succeeds exactly when the
signing secret matches and the embedded expiry (seconds since epoch) has
not passed.  The Redis blacklist entry `blacklist:token` written with
`EX ttl` at time `now` lives until `now + ttl`; a blacklist is a list of
(token, absolute expiry) pairs and `redis.get` sees exactly the
unexpired entries. -/

/-- Decoded JWT payload: `{ id, name, exp }` (server.js lines 148-152;
`expiresIn: 1h` sets `exp`). -/
structure Payload where
  id : String
  name : String
  exp : Nat
deriving DecidableEq, Repr

/-- A signed token: payload plus signing secret. -/
structure Token where
  payload : Payload
  secret : String
deriving DecidableEq, Repr

/-- `jwt.verify(token, SECRET)` at time `now` (seconds): checks the
signature and that the embedded expiry has not passed. -/
def jwtVerify (secret : String) (now : Nat) (t : Token) : Option Payload :=
  if t.secret = secret ∧ now < t.payload.exp then some t.payload else none

/-- A blacklist entry: the token and the absolute time at which the
Redis key expires and is purged. -/
abbrev Blacklist : Type := List (Token × Nat)

/-- `await redis.get(blacklist:token)` is truthy: an entry for the token
exists and its TTL has not run out. -/
def isBlacklisted (now : Nat) (bl : Blacklist) (t : Token) : Bool :=
  bl.any (fun e => e.1 == t && decide (now < e.2))

/-- Outcome of the HTTP auth middleware `authenticate`
(server.js lines 174-189): either the verified payload is attached to
the request, or the request is rejected with a status and error body. -/
inductive AuthResult where
  | ok (user : Payload)
  | rejected (status : Nat) (error : String)
deriving DecidableEq, Repr

/-- The `authenticate` middleware on a request carrying a bearer token:
the blacklist is consulted first (lines 179-181), then the signature and
expiry are verified (lines 183-188). -/
def authenticate (secret : String) (now : Nat) (bl : Blacklist)
    (t : Token) : AuthResult :=
  if isBlacklisted now bl t then .rejected 401 "Token is blacklisted"
  else
    match jwtVerify secret now t with
    | some user => .ok user
    | none => .rejected 401 "Invalid token"

/-- `wsAuthenticate` (server.js lines 389-406) on the token query
parameter: `none` when the parameter is missing, the token is
blacklisted, or verification fails. -/
def wsAuthenticate (secret : String) (now : Nat) (bl : Blacklist)
    (tok : Option Token) : Option Payload :=
  match tok with
  | none => none
  | some t =>
    if isBlacklisted now bl t then none
    else jwtVerify secret now t

/-- Outcome of the websocket connection handshake
(server.js lines 446-452): a failed `wsAuthenticate` closes the socket
with code 4001. -/
inductive WsOutcome where
  | accepted (user : Payload)
  | closed (code : Nat)
deriving DecidableEq, Repr

/-- The connection handler: authenticate, close 4001 on failure. -/
def wsHandshake (secret : String) (now : Nat) (bl : Blacklist)
    (tok : Option Token) : WsOutcome :=
  match wsAuthenticate secret now bl tok with
  | some user => .accepted user
  | none => .closed 4001

/-- Response of `POST /api/logout` (server.js lines 158-171). -/
structure LogoutResp where
  status : Nat
  error : Option String
deriving DecidableEq, Repr

/-- `POST /api/logout` with a bearer token at time `now` (seconds):
on a verifiable token, compute `ttl = exp - now` and write
`blacklist:token` with expiry `EX ttl`, so the entry is purged at
absolute time `now + (exp - now)`; on a failing `jwt.verify`, respond
400 `Invalid token` and leave the blacklist untouched. -/
def logout (secret : String) (now : Nat) (bl : Blacklist) (t : Token) :
    Blacklist × LogoutResp :=
  match jwtVerify secret now t with
  | some d =>
    ((t, now + (d.exp - now)) :: bl, { status := 200, error := none })
  | none => (bl, { status := 400, error := some "Invalid token" })

/-! ## Room creation (server.js lines 237-264) -/

/-- `name.toLowerCase().replace(/[^a-z0-9]/g, lowbar-dash)`
(server.js line 244): lowercase the name, then replace every character
that is not a lowercase letter or digit by a dash. -/
def slugify (name : String) : String :=
  { data := name.data.map
      (fun c =>
        let c := c.toLower
        if (('a' ≤ c ∧ c ≤ 'z') ∨ ('0' ≤ c ∧ c ≤ '9')) then c else '-') }

/-- Room record stored in Redis and returned by `POST /api/rooms`
(server.js lines 253-258). -/
structure RoomData where
  id : String
  name : String
  created : Nat
  createdBy : String
deriving DecidableEq, Repr

/-- Response of `POST /api/rooms`. -/
inductive CreateResult where
  | created (room : RoomData)
  | badRequest
  | conflict
deriving DecidableEq, Repr

/-! ## Server state and websocket handlers

JavaScript `Map`s keep insertion order: `set` of a present key replaces
the value in place, otherwise appends; `delete` removes the entry.
JavaScript `Set`s likewise: `add` appends if absent, `delete` removes.
Both are modelled as association lists / duplicate-free lists. -/

/-- Lookup in a JS `Map` modelled as an association list. -/
def alistFind (l : List (String × α)) (k : String) : Option α :=
  match l.find? (fun p => p.1 == k) with
  | some p => some p.2
  | none => none

/-- `Map.set`: replace in place if present, else append. -/
def alistSet (l : List (String × α)) (k : String) (v : α) :
    List (String × α) :=
  if (l.find? (fun p => p.1 == k)).isSome then
    l.map (fun p => if p.1 == k then (p.1, v) else p)
  else l ++ [(k, v)]

/-- `Set.add`: append if absent. -/
def setAdd (l : List String) (x : String) : List String :=
  if x ∈ l then l else l ++ [x]

/-- A websocket client record (server.js lines 455-460): the
authenticated user and the set of joined room ids. -/
structure Client where
  userId : String
  userName : String
  rooms : List String
deriving DecidableEq, Repr

/-- The mutable server state touched by the handlers: the Redis room
set, the `clients` map, the `roomConsumers` map (room id to the
subscriber set of its shared Kafka consumer), the per-room Redis hot
cache `chat-history:*` (most recent first), the pending bus messages in
publish order, and the MongoDB archive in insertion order. -/
structure ServerState where
  rooms : List String
  clients : List (String × Client)
  roomConsumers : List (String × List String)
  cache : List (String × List Msg)
  bus : List Msg
  store : List Msg
deriving DecidableEq, Repr

/-- The hot-cache list of a room (`chat-history:roomId`; an absent key
reads as the empty list). -/
def cacheOf (st : ServerState) (roomId : String) : List Msg :=
  (alistFind st.cache roomId).getD []

/-- Frames pushed to a single client by `sendToClient`. -/
inductive Frame where
  | errFrame (content : String)
  | historyFrame (roomId : String) (messages : List Msg) (src : String)
deriving DecidableEq, Repr

/-- `getOrCreateRoomConsumer` (server.js lines 412-443), restricted to
the registry effect: if the room has no entry, create one with an empty
subscriber set. -/
def getOrCreateRoomConsumer (rc : List (String × List String))
    (roomId : String) : List (String × List String) :=
  if (alistFind rc roomId).isSome then rc else rc ++ [(roomId, [])]

/-- `subscribers.add(clientId)` on the entry of `roomId`. -/
def rcAddSub (rc : List (String × List String)) (roomId clientId : String) :
    List (String × List String) :=
  rc.map (fun p => if p.1 == roomId then (p.1, setAdd p.2 clientId) else p)

/-- The registry effect of `handleLeaveRoom` (server.js lines 662-677):
remove the client from the subscriber set; if the set becomes empty,
disconnect the consumer and delete the entry. -/
def rcRemoveSub (rc : List (String × List String)) (roomId clientId : String) :
    List (String × List String) :=
  match alistFind rc roomId with
  | none => rc
  | some subs =>
    let subs' := subs.erase clientId
    if subs' = [] then rc.filter (fun p => !(p.1 == roomId))
    else rc.map (fun p => if p.1 == roomId then (p.1, subs') else p)

/-- `handleJoinRoom` (server.js lines 563-651).  `noticeId` stands for
the fresh uuid of the join notice and `now` for `Date.now()`; `pubOk`
states whether the Kafka publish of the notice succeeds (on failure the
exception reaches the websocket message handler, whose catch block sends
an `Invalid message format` error frame, lines 517-523; all state
mutations precede the publish).  System notices carry no author fields
(the record has only type, roomId, content, timestamp, id; the absent
author fields are modelled as empty strings). -/
def handleJoinRoom (st : ServerState) (clientId roomId : String)
    (noticeId : String) (now : Nat) (pubOk : Bool) :
    ServerState × List Frame :=
  match alistFind st.clients clientId with
  | none => (st, [])
  | some client =>
    if roomId ∉ st.rooms then (st, [Frame.errFrame "Room not found"])
    else if roomId ∈ client.rooms then
      (st, [Frame.errFrame "You are already in this room"])
    else
      let rc := rcAddSub (getOrCreateRoomConsumer st.roomConsumers roomId)
                  roomId clientId
      let clients' := alistSet st.clients clientId
                        { client with rooms := setAdd client.rooms roomId }
      let recent := (cacheOf st roomId).take MAX_MESSAGES_PER_ROOM
      let older :=
        if recent.length < MAX_MESSAGES_PER_ROOM then
          mongoFind st.store
            (fun m => m.roomId == roomId &&
                      (match recent.getLast? with
                       | some old => decide (m.timestamp < old.timestamp)
                       | none => true))
            (MAX_MESSAGES_PER_ROOM - recent.length)
        else []
      let frames :=
        [Frame.historyFrame roomId recent.reverse "recent"] ++
        (if older = [] then [] else [Frame.historyFrame roomId older "archive"]) ++
        (if pubOk then [] else [Frame.errFrame "Invalid message format"])
      let joinMsg : Msg :=
        { id := noticeId, type := "system", roomId := roomId
          content := client.userName ++ " has joined the room"
          userId := "", username := "", timestamp := now }
      ({ st with clients := clients', roomConsumers := rc
                 bus := if pubOk then st.bus ++ [joinMsg] else st.bus },
       frames)

/-- `handleLeaveRoom` (server.js lines 654-701).  A no-op when the
client is unknown or has not joined the room; otherwise the room is
removed from the client record, the client is removed from the room
subscriber set (tearing the consumer down when the set empties), and a
leave notice is published (`pubOk` as for join; the publish is the last
operation inside the try block, and the catch block only re-runs the
already-performed deletion, so a failed publish loses only the
notice). -/
def handleLeaveRoom (st : ServerState) (clientId roomId : String)
    (noticeId : String) (now : Nat) (pubOk : Bool) :
    ServerState × List Frame :=
  match alistFind st.clients clientId with
  | none => (st, [])
  | some client =>
    if roomId ∈ client.rooms then
      let clients' := alistSet st.clients clientId
                        { client with rooms := client.rooms.erase roomId }
      let rc := rcRemoveSub st.roomConsumers roomId clientId
      let leaveMsg : Msg :=
        { id := noticeId, type := "system", roomId := roomId
          content := client.userName ++ " has left the room"
          userId := "", username := "", timestamp := now }
      ({ st with clients := clients', roomConsumers := rc
                 bus := if pubOk then st.bus ++ [leaveMsg] else st.bus },
       [])
    else (st, [])

/-- The content validation `!content || typeof content !== string ||
content.trim() === ''` (server.js line 714) on a string content: true
exactly when every character is whitespace (the empty string
included). -/
def trimIsEmpty (content : String) : Bool :=
  content.data.all Char.isWhitespace

/-- The message object constructed by `handleChatMessage`
(server.js lines 722-730). -/
def mkChatMsg (client : Client) (roomId content msgId : String)
    (now : Nat) : Msg :=
  { id := msgId, type := "message", roomId := roomId, content := content
    userId := client.userId, username := client.userName, timestamp := now }

/-- `handleChatMessage` (server.js lines 704-757).  `msgId` stands for
the fresh uuid, `now` for `Date.now()`; `pubOk` states whether
`producer.send` succeeds.  On success the message is also pushed to the
front of the hot cache, which is then trimmed to
`MAX_MESSAGES_PER_ROOM` entries (lines 740-741); on failure the catch
block sends a transient error frame and the cache write is never
reached. -/
def handleChatMessage (st : ServerState) (clientId roomId content : String)
    (msgId : String) (now : Nat) (pubOk : Bool) :
    ServerState × List Frame :=
  match alistFind st.clients clientId with
  | none => (st, [Frame.errFrame "You are not in this room"])
  | some client =>
    if roomId ∈ client.rooms then
      if trimIsEmpty content then
        (st, [Frame.errFrame "Message cannot be empty"])
      else
        let message : Msg := mkChatMsg client roomId content msgId now
        if pubOk then
          ({ st with bus := st.bus ++ [message]
                     cache := alistSet st.cache roomId
                       ((message :: cacheOf st roomId).take
                         MAX_MESSAGES_PER_ROOM) },
           [])
        else
          (st, [Frame.errFrame "Failed to send message, please try again"])
    else (st, [Frame.errFrame "You are not in this room"])

/-- Disconnect cleanup (server.js lines 527-547): leave every joined
room (iterating over a copy of the room set), then delete the client
from the map.  Each per-room leave publishes a notice with a fresh uuid,
modelled as `nidBase ++ roomId`. -/
def disconnectClient (st : ServerState) (clientId nidBase : String)
    (now : Nat) : ServerState :=
  match alistFind st.clients clientId with
  | none => st
  | some client =>
    let st' := client.rooms.foldl
      (fun s r => (handleLeaveRoom s clientId r (nidBase ++ r) now true).1) st
    { st' with clients := st'.clients.filter (fun p => !(p.1 == clientId)) }

/-- `POST /api/rooms` (server.js lines 237-264): 400 without a name,
409 when the slugified id already exists, otherwise record the room and
return its data with status 201. -/
def createRoom (st : ServerState) (name userId : String) (now : Nat) :
    ServerState × CreateResult :=
  if name = "" then (st, .badRequest)
  else
    let roomId := slugify name
    if roomId ∈ st.rooms then (st, .conflict)
    else
      ({ st with rooms := st.rooms ++ [roomId] },
       .created { id := roomId, name := name, created := now
                  createdBy := userId })

/-- The `eachMessage` body of the storage consumer
(server.js lines 796-816): unconditionally `Message.create` a record
copying id (falling back to a fresh uuid when the payload id is falsy,
i.e. the empty string), type, room id (re-derived from the topic name,
hence equal to the payload room id), content, author fields and
timestamp.  No existence check is performed before the insert, and the
schema indexes `id` without a uniqueness constraint (lines 57-66). -/
def storageEachMessage (store : List Msg) (m : Msg) (fallbackId : String) :
    List Msg :=
  store ++ [{ m with id := if m.id = "" then fallbackId else m.id }]

/-- Deliver the next pending bus message to the storage consumer. -/
def archiveStep (st : ServerState) (fallbackId : String) : ServerState :=
  match st.bus with
  | [] => st
  | m :: rest =>
    { st with bus := rest, store := storageEachMessage st.store m fallbackId }

/-- Events of the sequential server semantics: each constructor is one
completed operation of the source, carrying the fresh uuids and the
`Date.now()` reading that the operation consumed. -/
inductive Event where
  | connect (clientId userId userName : String)
  | disconnect (clientId nidBase : String) (now : Nat)
  | join (clientId roomId noticeId : String) (now : Nat) (pubOk : Bool)
  | leave (clientId roomId noticeId : String) (now : Nat) (pubOk : Bool)
  | chat (clientId roomId content msgId : String) (now : Nat) (pubOk : Bool)
  | mkRoom (name userId : String) (now : Nat)
  | archive (fallbackId : String)
deriving DecidableEq, Repr

/-- One step of the server semantics. -/
def stepEvent (st : ServerState) : Event → ServerState
  | .connect c uid uname =>
    { st with clients := alistSet st.clients c ⟨uid, uname, []⟩ }
  | .disconnect c nb now => disconnectClient st c nb now
  | .join c r nid now ok => (handleJoinRoom st c r nid now ok).1
  | .leave c r nid now ok => (handleLeaveRoom st c r nid now ok).1
  | .chat c r content mid now ok => (handleChatMessage st c r content mid now ok).1
  | .mkRoom name uid now => (createRoom st name uid now).1
  | .archive fid => archiveStep st fid

/-- The server state after startup: the default rooms exist
(server.js lines 120, 194-206), everything else is empty. -/
def initState : ServerState :=
  { rooms := ["general", "random", "tech"], clients := []
    roomConsumers := [], cache := [], bus := [], store := [] }

/-- Run a sequence of operations from startup. -/
def runEvents (es : List Event) : ServerState := es.foldl stepEvent initState

/-! ## Auxiliary predicates used by the theorems -/

/-- The `Date.now()` reading an event consumes, when it consumes one. -/
def eventTime : Event → Option Nat
  | .connect _ _ _ => none
  | .disconnect _ _ now => some now
  | .join _ _ _ now _ => some now
  | .leave _ _ _ now _ => some now
  | .chat _ _ _ _ now _ => some now
  | .mkRoom _ _ now => some now
  | .archive _ => none

/-- The wall clock is monotone: along the trace, every consumed
`Date.now()` reading is at least `t` and at least every earlier one. -/
def TraceMono (t : Nat) : List Event → Prop
  | [] => True
  | e :: es =>
    match eventTime e with
    | none => TraceMono t es
    | some n => t ≤ n ∧ TraceMono n es

instance (t : Nat) (es : List Event) : Decidable (TraceMono t es) := by
  induction es generalizing t with
  | nil => exact .isTrue trivial
  | cons e es ih =>
    cases he : eventTime e with
    | none => exact decidable_of_iff (TraceMono t es) (by rw [TraceMono, he])
    | some n =>
      have : Decidable (t ≤ n ∧ TraceMono n es) := @instDecidableAnd _ _ _ (ih n)
      exact decidable_of_iff _ (by rw [TraceMono, he])

/-- Lexicographic strict order on character lists (used as the total
order on message ids for the tie-break predicates). -/
def charListLt : List Char → List Char → Bool
  | [], [] => false
  | [], _ :: _ => true
  | _ :: _, [] => false
  | a :: as, b :: bs =>
    if a < b then true else if b < a then false else charListLt as bs

/-- Lexicographic strict order on strings. -/
def idLt (a b : String) : Bool := charListLt a.data b.data

/-- Sorted by timestamp descending, with the message id as ascending
tie-break on equal timestamps. -/
abbrev tsIdSortedAsc (l : List TMsg) : Prop :=
  l.Pairwise (fun x y =>
    y.m.timestamp < x.m.timestamp ∨
    (y.m.timestamp = x.m.timestamp ∧ idLt x.m.id y.m.id = true))

/-- Sorted by timestamp descending, with the message id as descending
tie-break on equal timestamps. -/
abbrev tsIdSortedDesc (l : List TMsg) : Prop :=
  l.Pairwise (fun x y =>
    y.m.timestamp < x.m.timestamp ∨
    (y.m.timestamp = x.m.timestamp ∧ idLt y.m.id x.m.id = true))

/-- Invariant of a room-consumer registry: every entry has a non-empty
subscriber set, and no room has two entries. -/
def RegInvR (rc : List (String × List String)) : Prop :=
  (∀ p ∈ rc, p.2 ≠ []) ∧ (rc.map Prod.fst).Nodup

/-- The registry invariant on a server state. -/
def RegistryInv (st : ServerState) : Prop := RegInvR st.roomConsumers

/-- The subscriber set of a room (empty when the room has no consumer
entry). -/
def subsOf (st : ServerState) (r : String) : List String :=
  (alistFind st.roomConsumers r).getD []

/-- The clock-free part of the hot-cache invariant: every per-room list
has at most `MAX_MESSAGES_PER_ROOM` entries and holds only chat
messages (kind `message`). -/
def CacheTyped (st : ServerState) : Prop :=
  ∀ p ∈ st.cache,
    p.2.length ≤ MAX_MESSAGES_PER_ROOM ∧ ∀ m ∈ p.2, m.type = "message"

/-- The clock-dependent part of the hot-cache invariant at bound `t`:
every per-room list is ordered most recent first and holds only
timestamps at most `t`. -/
def CacheChrono (st : ServerState) (t : Nat) : Prop :=
  ∀ p ∈ st.cache,
    p.2.Pairwise (fun x y => y.timestamp ≤ x.timestamp) ∧
    ∀ m ∈ p.2, m.timestamp ≤ t

/-! ## Concrete inputs used by witnesses and counterexamples -/

/-- A token issued to `user1` with the default secret, expiring at 1000
(seconds since epoch). -/
def tok1 : Token := ⟨⟨"user1", "Alice", 1000⟩, "super_secret_key"⟩

/-- A trace producing an archived system notice (id `s1`, timestamp 20)
that lies strictly between two cached chat messages (timestamps 10 and
30): Ann connects and joins `general`, chats at 10, Bob joins at 20
(system notice published to the bus only), Ann chats at 30, and the
storage consumer archives all four bus messages. -/
def trGap : List Event :=
  [.connect "c" "u1" "Ann",
   .join "c" "general" "n0" 5 true,
   .chat "c" "general" "hi" "a" 10 true,
   .connect "d" "u2" "Bob",
   .join "d" "general" "s1" 20 true,
   .chat "c" "general" "yo" "b" 30 true,
   .archive "f1", .archive "f2", .archive "f3", .archive "f4"]

/-- A trace whose hot cache holds two timestamp ties in opposite id
orders: uuids are not ordered by creation time, so the pushes at
timestamp 10 carry ids `z` then `d`, and the pushes at timestamp 20
carry ids `a` then `q`; `lpush` puts the later push first. -/
def trTie : List Event :=
  [.connect "c" "u1" "Ann",
   .join "c" "general" "n0" 5 true,
   .chat "c" "general" "m1" "z" 10 true,
   .chat "c" "general" "m2" "d" 10 true,
   .chat "c" "general" "m3" "a" 20 true,
   .chat "c" "general" "m4" "q" 20 true]

/-- A state with one client `c` (user Ann) connected and joined to
`general`, used to exercise the chat handler. -/
def stChat : ServerState :=
  runEvents [.connect "c" "u1" "Ann", .join "c" "general" "n0" 5 true]

/-- The chat message delivered twice to the storage consumer in the
duplicate-archival scenario. -/
def dupMsg : Msg :=
  { id := "m-1", type := "message", roomId := "general", content := "hi"
    userId := "u1", username := "Ann", timestamp := 10 }

/-- A hot cache with two chat messages (timestamps 30 and 20), used to
exercise the combined read. -/
def cacheW : List Msg :=
  [{ id := "b", type := "message", roomId := "general", content := "m2"
     userId := "u1", username := "Ann", timestamp := 30 },
   { id := "a", type := "message", roomId := "general", content := "m1"
     userId := "u1", username := "Ann", timestamp := 20 }]

/-- A durable store holding two older archived messages (timestamps 5
and 8) besides the archived copies of the cached ones. -/
def storeW : List Msg :=
  [{ id := "x1", type := "message", roomId := "general", content := "o1"
     userId := "u1", username := "Ann", timestamp := 5 },
   { id := "x2", type := "message", roomId := "general", content := "o2"
     userId := "u1", username := "Ann", timestamp := 8 },
   { id := "a", type := "message", roomId := "general", content := "m1"
     userId := "u1", username := "Ann", timestamp := 20 },
   { id := "b", type := "message", roomId := "general", content := "m2"
     userId := "u1", username := "Ann", timestamp := 30 }]

/-! # Theorems

## Helper lemmas about the sort and the extrema -/

theorem ordInsert_perm (key : α → Nat) (a : α) (l : List α) :
    List.Perm (ordInsert key a l) (a :: l) := by
  induction l with
  | nil => exact List.Perm.refl _
  | cons b l ih =>
    rw [ordInsert]
    split
    · exact List.Perm.refl _
    · exact (ih.cons b).trans (List.Perm.swap a b l)

theorem sortKeyDesc_perm (key : α → Nat) (l : List α) :
    List.Perm (sortKeyDesc key l) l := by
  induction l with
  | nil => exact List.Perm.refl _
  | cons a l ih => exact (ordInsert_perm key a _).trans (ih.cons a)

theorem mem_ordInsert (key : α → Nat) (a x : α) (l : List α) :
    x ∈ ordInsert key a l ↔ x = a ∨ x ∈ l := by
  rw [(ordInsert_perm key a l).mem_iff, List.mem_cons]

theorem pairwise_ordInsert (key : α → Nat) (a : α) (l : List α)
    (h : l.Pairwise (fun x y => key y ≤ key x)) :
    (ordInsert key a l).Pairwise (fun x y => key y ≤ key x) := by
  induction l with
  | nil => simp [ordInsert]
  | cons b l ih =>
    rw [List.pairwise_cons] at h
    obtain ⟨hb, hl⟩ := h
    rw [ordInsert]
    split
    · rename_i hba
      refine List.Pairwise.cons ?_ (List.Pairwise.cons hb hl)
      intro y hy
      rcases List.mem_cons.mp hy with rfl | hyl
      · exact hba
      · exact le_trans (hb y hyl) hba
    · rename_i hba
      refine List.Pairwise.cons ?_ (ih hl)
      intro y hy
      rcases (mem_ordInsert key a y l).mp hy with rfl | hyl
      · exact le_of_lt (lt_of_not_le hba)
      · exact hb y hyl

theorem pairwise_sortKeyDesc (key : α → Nat) (l : List α) :
    (sortKeyDesc key l).Pairwise (fun x y => key y ≤ key x) := by
  induction l with
  | nil => simp [sortKeyDesc]
  | cons a l ih => exact pairwise_ordInsert key a _ ih

theorem minKey_le (key : α → Nat) (l : List α) (o : Nat)
    (h : minKey key l = some o) : ∀ x ∈ l, o ≤ key x := by
  induction l generalizing o with
  | nil => simp [minKey] at h
  | cons a l ih =>
    rw [minKey] at h
    intro x hx
    rcases List.mem_cons.mp hx with rfl | hxl
    · cases hml : minKey key l with
      | none => simp [hml] at h; omega
      | some b => simp [hml] at h; omega
    · cases hml : minKey key l with
      | none =>
        cases l with
        | nil => cases hxl
        | cons c l2 => simp [minKey] at hml
      | some b =>
        have hb := ih b hml x hxl
        simp [hml] at h
        omega

theorem minKey_mem (key : α → Nat) (l : List α) (o : Nat)
    (h : minKey key l = some o) : ∃ x ∈ l, key x = o := by
  induction l generalizing o with
  | nil => simp [minKey] at h
  | cons a l ih =>
    rw [minKey] at h
    cases hml : minKey key l with
    | none =>
      simp [hml] at h
      exact ⟨a, List.mem_cons_self a l, h⟩
    | some b =>
      simp [hml] at h
      rcases le_total (key a) b with hab | hab
      · refine ⟨a, List.mem_cons_self a l, ?_⟩
        omega
      · obtain ⟨x, hxl, hxk⟩ := ih b hml
        refine ⟨x, List.mem_cons_of_mem a hxl, ?_⟩
        omega

theorem maxKey_ge (key : α → Nat) (l : List α) (o : Nat)
    (h : maxKey key l = some o) : ∀ x ∈ l, key x ≤ o := by
  induction l generalizing o with
  | nil => simp [maxKey] at h
  | cons a l ih =>
    rw [maxKey] at h
    intro x hx
    rcases List.mem_cons.mp hx with rfl | hxl
    · cases hml : maxKey key l with
      | none => simp [hml] at h; omega
      | some b => simp [hml] at h; omega
    · cases hml : maxKey key l with
      | none =>
        cases l with
        | nil => cases hxl
        | cons c l2 => simp [maxKey] at hml
      | some b =>
        have hb := ih b hml x hxl
        simp [hml] at h
        omega

theorem maxKey_mem (key : α → Nat) (l : List α) (o : Nat)
    (h : maxKey key l = some o) : ∃ x ∈ l, key x = o := by
  induction l generalizing o with
  | nil => simp [maxKey] at h
  | cons a l ih =>
    rw [maxKey] at h
    cases hml : maxKey key l with
    | none =>
      simp [hml] at h
      exact ⟨a, List.mem_cons_self a l, h⟩
    | some b =>
      simp [hml] at h
      rcases le_total b (key a) with hab | hab
      · refine ⟨a, List.mem_cons_self a l, ?_⟩
        omega
      · obtain ⟨x, hxl, hxk⟩ := ih b hml
        refine ⟨x, List.mem_cons_of_mem a hxl, ?_⟩
        omega

theorem minKey_eq_none (key : α → Nat) (l : List α) :
    minKey key l = none ↔ l = [] := by
  cases l <;> simp [minKey]

/-! ## C4 — archival consumer idempotence -/

/-- C4: the storage consumer is NOT idempotent under at-least-once
delivery.  Delivering the bus message `dupMsg` (id `m-1`) a second time
when a record with that id is already stored produces a second archive
record with the same id: `Message.create` is called unconditionally
(server.js lines 802-810) and the schema merely indexes `id` without a
uniqueness constraint (line 58), so nothing rejects the duplicate. -/
theorem storage_redelivery_duplicates_id :
    (storageEachMessage [] dupMsg "fb1").countP
        (fun r => r.id == dupMsg.id) = 1 ∧
    (storageEachMessage (storageEachMessage [] dupMsg "fb1") dupMsg
        "fb2").countP (fun r => r.id == dupMsg.id) = 2 := by
  decide

/-! ## C5 — revoked and expired tokens are rejected -/

/-- C5: a revoked token whose embedded expiry has not yet passed is
rejected by the HTTP middleware (401 `Token is blacklisted`) and by the
websocket handshake (close 4001); and once the expiry has passed, the
token is rejected against ANY blacklist — in particular one from which
the revocation entry has been purged — because `jwt.verify` itself
fails. -/
theorem revoked_then_expired_token_rejected (secret : String) (now : Nat)
    (t : Token) (bl : Blacklist) :
    (now < t.payload.exp → isBlacklisted now bl t = true →
      authenticate secret now bl t = .rejected 401 "Token is blacklisted" ∧
      wsHandshake secret now bl (some t) = .closed 4001) ∧
    (t.payload.exp ≤ now → ∀ bl2 : Blacklist,
      (∃ e, authenticate secret now bl2 t = .rejected 401 e) ∧
      wsHandshake secret now bl2 (some t) = .closed 4001) := by
  constructor
  · intro _ hbl
    constructor
    · simp [authenticate, hbl]
    · simp [wsHandshake, wsAuthenticate, hbl]
  · intro hexp bl2
    have hv : jwtVerify secret now t = none := by
      rw [jwtVerify, if_neg]
      rintro ⟨-, h2⟩
      omega
    constructor
    · by_cases hb : isBlacklisted now bl2 t
      · exact ⟨"Token is blacklisted", by simp [authenticate, hb]⟩
      · exact ⟨"Invalid token", by simp [authenticate, hb, hv]⟩
    · by_cases hb : isBlacklisted now bl2 t <;>
        simp [wsHandshake, wsAuthenticate, hb, hv]

/-- Witness for C5 at `tok1` (expiry 1000): revoked at time 400 it is
rejected by both paths; at time 1200, with the revocation entry purged
(empty blacklist), it is still rejected by both paths. -/
theorem revoked_then_expired_token_rejected_witness :
    (authenticate "super_secret_key" 400 [(tok1, 1000)] tok1 =
        .rejected 401 "Token is blacklisted" ∧
      wsHandshake "super_secret_key" 400 [(tok1, 1000)] (some tok1) =
        .closed 4001) ∧
    ((∃ e, authenticate "super_secret_key" 1200 [] tok1 =
        .rejected 401 e) ∧
      wsHandshake "super_secret_key" 1200 [] (some tok1) = .closed 4001) :=
  ⟨(revoked_then_expired_token_rejected "super_secret_key" 400 tok1
      [(tok1, 1000)]).1 (by decide) (by decide),
   (revoked_then_expired_token_rejected "super_secret_key" 1200 tok1
      []).2 (by decide) []⟩

/-! ## C7 — deterministic room ids and creation conflicts -/

/-- C7: the room id is derived deterministically from the display name
by lowercasing and replacing non-alphanumeric characters with a dash,
so `Project X` yields `project-x`; a creation whose derived id already
exists returns 409 conflict with the room set unchanged, and a creation
with a fresh id records exactly that id. -/
theorem room_id_derivation_and_conflict (st : ServerState)
    (name userId : String) (now : Nat) :
    slugify "Project X" = "project-x" ∧
    (name ≠ "" → slugify name ∈ st.rooms →
      createRoom st name userId now = (st, .conflict)) ∧
    (name ≠ "" → slugify name ∉ st.rooms →
      createRoom st name userId now =
        ({ st with rooms := st.rooms ++ [slugify name] },
         .created ⟨slugify name, name, now, userId⟩)) := by
  refine ⟨by decide, ?_, ?_⟩
  · intro h1 h2
    simp [createRoom, h1, h2]
  · intro h1 h2
    simp [createRoom, h1, h2]

/-- Witness for C7: creating `Project X` on the initial state yields id
`project-x`, and repeating the creation returns a conflict that leaves
the room set unchanged. -/
theorem room_id_derivation_and_conflict_witness :
    createRoom initState "Project X" "user1" 7 =
      ({ initState with rooms := initState.rooms ++ ["project-x"] },
       .created ⟨"project-x", "Project X", 7, "user1"⟩) ∧
    createRoom { initState with rooms := initState.rooms ++ ["project-x"] }
        "Project X" "user1" 9 =
      ({ initState with rooms := initState.rooms ++ ["project-x"] },
       .conflict) := by
  have e : slugify "Project X" = "project-x" :=
    (room_id_derivation_and_conflict initState "Project X" "user1" 7).1
  constructor
  · have h := (room_id_derivation_and_conflict initState "Project X"
      "user1" 7).2.2 (by decide) (by rw [e]; decide)
    rw [e] at h
    exact h
  · have h := (room_id_derivation_and_conflict
      { initState with rooms := initState.rooms ++ ["project-x"] }
      "Project X" "user1" 9).2.1 (by decide) (by rw [e]; decide)
    exact h

/-! ## C9 — logout / revocation -/

/-- C9 counterexample: presenting an already-expired token (tok1 at
time 1000, its exact expiry instant) to `POST /api/logout` leaves the
revocation set unchanged but does NOT fail silently: the endpoint
responds 400 with an `Invalid token` error body
(server.js lines 168-170), refuting the claim that no error is raised
to the caller. -/
theorem logout_invalid_token_raises_error :
    logout "super_secret_key" 1000 [] tok1 =
      ([], { status := 400, error := some "Invalid token" }) ∧
    (logout "super_secret_key" 1000 [] tok1).2.error ≠ none := by
  decide

/-- C9 amended: on a valid token, logout records a revocation entry
whose TTL is the remaining lifetime of the token, so the entry expires
exactly at the token embedded expiry; on an invalid token the
revocation set is unchanged and the endpoint responds 400 with an
`Invalid token` error (rather than silently succeeding). -/
theorem logout_revocation_semantics (secret : String) (now : Nat)
    (bl : Blacklist) (t : Token) :
    (∀ d, jwtVerify secret now t = some d →
      logout secret now bl t =
        ((t, t.payload.exp) :: bl, { status := 200, error := none })) ∧
    (jwtVerify secret now t = none →
      logout secret now bl t =
        (bl, { status := 400, error := some "Invalid token" })) := by
  constructor
  · intro d hd
    have hcond : t.secret = secret ∧ now < t.payload.exp := by
      by_contra hc
      rw [jwtVerify, if_neg hc] at hd
      cases hd
    have hdd : d = t.payload := by
      rw [jwtVerify, if_pos hcond] at hd
      exact (Option.some.inj hd).symm
    subst hdd
    have hexp : now + (t.payload.exp - now) = t.payload.exp := by omega
    simp [logout, hd, hexp]
  · intro hv
    simp [logout, hv]

/-- Witness for C9 at `tok1`: revoking at time 400 records an entry
expiring at 1000 (the token expiry) with status 200; revoking at time
1200 leaves the set unchanged with a 400 error. -/
theorem logout_revocation_semantics_witness :
    logout "super_secret_key" 400 [] tok1 =
      ([(tok1, 1000)], { status := 200, error := none }) ∧
    logout "super_secret_key" 1200 [] tok1 =
      ([], { status := 400, error := some "Invalid token" }) :=
  ⟨(logout_revocation_semantics "super_secret_key" 400 [] tok1).1
      tok1.payload (by decide),
   (logout_revocation_semantics "super_secret_key" 1200 [] tok1).2
      (by decide)⟩

/-! ## C6 — send validation, publish and failure handling -/

/-- C6: `send(roomId, content)` reports `You are not in this room` and
changes nothing when the session is unknown or has not joined the room;
reports `Message cannot be empty` and changes nothing on empty or
whitespace-only content; otherwise builds a message with the fresh id
and the current timestamp, publishes it to the bus and pushes it onto
the hot cache; and when the publish fails it reports a transient error
frame while the state — in particular the client map and the session
joined-room set — is left completely unchanged. -/
theorem send_validation_publish_and_failure (st : ServerState)
    (clientId roomId content msgId : String) (now : Nat) (pubOk : Bool) :
    (alistFind st.clients clientId = none →
      handleChatMessage st clientId roomId content msgId now pubOk =
        (st, [Frame.errFrame "You are not in this room"])) ∧
    (∀ client, alistFind st.clients clientId = some client →
      (roomId ∉ client.rooms →
        handleChatMessage st clientId roomId content msgId now pubOk =
          (st, [Frame.errFrame "You are not in this room"])) ∧
      (roomId ∈ client.rooms →
        (trimIsEmpty content = true →
          handleChatMessage st clientId roomId content msgId now pubOk =
            (st, [Frame.errFrame "Message cannot be empty"])) ∧
        (trimIsEmpty content = false →
          handleChatMessage st clientId roomId content msgId now true =
            ({ st with
                 bus := st.bus ++ [mkChatMsg client roomId content msgId now]
                 cache := alistSet st.cache roomId
                   ((mkChatMsg client roomId content msgId now ::
                       cacheOf st roomId).take MAX_MESSAGES_PER_ROOM) },
             []) ∧
          handleChatMessage st clientId roomId content msgId now false =
            (st, [Frame.errFrame
                    "Failed to send message, please try again"])))) := by
  constructor
  · intro hc
    simp [handleChatMessage, hc]
  · intro client hc
    constructor
    · intro hnj
      simp [handleChatMessage, hc, hnj]
    · intro hj
      constructor
      · intro ht
        simp [handleChatMessage, hc, hj, ht]
      · intro ht
        constructor
        · simp [handleChatMessage, hc, hj, ht]
        · simp [handleChatMessage, hc, hj, ht]

/-- Witness for C6 on the concrete state `stChat` (client `c` joined to
`general`): unknown session, un-joined room, whitespace-only content,
failed publish, and a successful send. -/
theorem send_validation_publish_and_failure_witness :
    handleChatMessage stChat "zz" "general" "hi" "m1" 6 true =
      (stChat, [Frame.errFrame "You are not in this room"]) ∧
    handleChatMessage stChat "c" "random" "hi" "m1" 6 true =
      (stChat, [Frame.errFrame "You are not in this room"]) ∧
    handleChatMessage stChat "c" "general" "   " "m1" 6 true =
      (stChat, [Frame.errFrame "Message cannot be empty"]) ∧
    handleChatMessage stChat "c" "general" "hi" "m1" 6 false =
      (stChat, [Frame.errFrame "Failed to send message, please try again"]) ∧
    handleChatMessage stChat "c" "general" "hi" "m1" 6 true =
      ({ stChat with
           bus := stChat.bus ++
             [mkChatMsg ⟨"u1", "Ann", ["general"]⟩ "general" "hi" "m1" 6]
           cache := alistSet stChat.cache "general"
             ((mkChatMsg ⟨"u1", "Ann", ["general"]⟩ "general" "hi" "m1" 6 ::
                 cacheOf stChat "general").take MAX_MESSAGES_PER_ROOM) },
       []) := by
  have hfind : alistFind stChat.clients "c" =
      some ⟨"u1", "Ann", ["general"]⟩ := by decide
  refine ⟨?_, ?_, ?_, ?_, ?_⟩
  · exact (send_validation_publish_and_failure stChat "zz" "general" "hi"
      "m1" 6 true).1 (by decide)
  · exact ((send_validation_publish_and_failure stChat "c" "random" "hi"
      "m1" 6 true).2 ⟨"u1", "Ann", ["general"]⟩ hfind).1 (by decide)
  · exact (((send_validation_publish_and_failure stChat "c" "general" "   "
      "m1" 6 true).2 ⟨"u1", "Ann", ["general"]⟩ hfind).2 (by decide)).1
      (by decide)
  · exact ((((send_validation_publish_and_failure stChat "c" "general" "hi"
      "m1" 6 false).2 ⟨"u1", "Ann", ["general"]⟩ hfind).2 (by decide)).2
      (by decide)).2
  · exact ((((send_validation_publish_and_failure stChat "c" "general" "hi"
      "m1" 6 true).2 ⟨"u1", "Ann", ["general"]⟩ hfind).2 (by decide)).2
      (by decide)).1

/-! ## Helper lemmas about association lists and the registry -/

theorem alistFind_none_iff (l : List (String × α)) (k : String) :
    alistFind l k = none ↔ k ∉ l.map Prod.fst := by
  constructor
  · intro h hmem
    rw [List.mem_map] at hmem
    obtain ⟨p, hp, hpk⟩ := hmem
    rw [alistFind] at h
    cases hf : l.find? (fun q => q.1 == k) with
    | some q => rw [hf] at h; cases h
    | none =>
      rw [List.find?_eq_none] at hf
      have := hf p hp
      simp [hpk] at this
  · intro h
    rw [alistFind]
    cases hf : l.find? (fun q => q.1 == k) with
    | none => rfl
    | some q =>
      exfalso
      apply h
      rw [List.mem_map]
      refine ⟨q, List.mem_of_find?_eq_some hf, ?_⟩
      simpa using List.find?_some hf

theorem alistFind_some_mem (l : List (String × α)) (k : String) (v : α)
    (h : alistFind l k = some v) : (k, v) ∈ l := by
  rw [alistFind] at h
  cases hf : l.find? (fun q => q.1 == k) with
  | none => rw [hf] at h; cases h
  | some q =>
    rw [hf] at h
    cases h
    obtain ⟨a, b⟩ := q
    have hq1 : a = k := by simpa using List.find?_some hf
    subst hq1
    exact List.mem_of_find?_eq_some hf

theorem setAdd_ne_nil (l : List String) (x : String) : setAdd l x ≠ [] := by
  rw [setAdd]
  split
  · exact List.ne_nil_of_mem (by assumption)
  · simp

theorem map_update_keys (rc : List (String × α))
    (g : String × α → String × α) (hg : ∀ p, (g p).1 = p.1) :
    (rc.map g).map Prod.fst = rc.map Prod.fst := by
  rw [List.map_map]
  apply List.map_congr_left
  intro p _
  exact hg p

theorem rcAddSub_keys (rc : List (String × List String)) (r c : String) :
    (rcAddSub rc r c).map Prod.fst = rc.map Prod.fst :=
  map_update_keys rc _ (by intro p; split <;> rfl)

/-- The registry effect of a completed join preserves the registry
invariant: the created-if-absent entry immediately receives the joining
client, hence is non-empty. -/
theorem regInvR_joinOp (rc : List (String × List String)) (r c : String)
    (h : RegInvR rc) : RegInvR (rcAddSub (getOrCreateRoomConsumer rc r) r c) := by
  obtain ⟨h1, h2⟩ := h
  rw [getOrCreateRoomConsumer]
  split
  · refine ⟨?_, ?_⟩
    · intro q hq
      rw [rcAddSub, List.mem_map] at hq
      obtain ⟨p, hp, rfl⟩ := hq
      split
      · exact setAdd_ne_nil _ _
      · exact h1 p hp
    · rw [rcAddSub_keys]
      exact h2
  · rename_i hnone
    have hfindnone : alistFind rc r = none := by
      cases hfa : alistFind rc r with
      | none => rfl
      | some v => rw [hfa] at hnone; simp at hnone
    have hnotin : r ∉ rc.map Prod.fst :=
      (alistFind_none_iff rc r).mp hfindnone
    refine ⟨?_, ?_⟩
    · intro q hq
      rw [rcAddSub, List.mem_map] at hq
      obtain ⟨p, hp, rfl⟩ := hq
      split
      · exact setAdd_ne_nil _ _
      · rename_i hne
        rcases List.mem_append.mp hp with hpl | hpr
        · exact h1 p hpl
        · simp at hpr
          subst hpr
          exact absurd (by simp) hne
    · rw [rcAddSub_keys, List.map_append]
      rw [List.nodup_append]
      refine ⟨h2, by simp, ?_⟩
      intro a ha hb
      simp at hb
      subst hb
      exact hnotin ha

/-- The registry effect of a leave preserves the registry invariant:
an entry emptied by the removal is deleted, any other entry stays
non-empty. -/
theorem regInvR_leaveOp (rc : List (String × List String)) (r c : String)
    (h : RegInvR rc) : RegInvR (rcRemoveSub rc r c) := by
  obtain ⟨h1, h2⟩ := h
  cases hf : alistFind rc r with
  | none => simp only [rcRemoveSub, hf]; exact ⟨h1, h2⟩
  | some subs =>
    simp only [rcRemoveSub, hf]
    by_cases he : subs.erase c = []
    · rw [if_pos he]
      refine ⟨?_, ?_⟩
      · intro q hq
        exact h1 q (List.mem_of_mem_filter hq)
      · exact ((List.filter_sublist rc).map Prod.fst).nodup h2
    · rw [if_neg he]
      refine ⟨?_, ?_⟩
      · intro q hq
        rw [List.mem_map] at hq
        obtain ⟨p, hp, rfl⟩ := hq
        split
        · exact he
        · exact h1 p hp
      · rw [map_update_keys rc
          (fun p => if p.1 == r then (p.1, subs.erase c) else p)
          (by intro p
              show (if (p.1 == r) = true then (p.1, subs.erase c) else p).1 =
                p.1
              split <;> rfl)]
        exact h2

/-! ## Component equations for the handlers -/

/-- A join never writes the hot cache. -/
theorem handleJoinRoom_cache (st : ServerState) (c r nid : String)
    (now : Nat) (ok : Bool) :
    (handleJoinRoom st c r nid now ok).1.cache = st.cache := by
  cases hc : alistFind st.clients c with
  | none => simp [handleJoinRoom, hc]
  | some client =>
    by_cases h1 : r ∈ st.rooms
    · by_cases h2 : r ∈ client.rooms
      · simp [handleJoinRoom, hc, h1, h2]
      · simp [handleJoinRoom, hc, h1, h2]
    · simp [handleJoinRoom, hc, h1]

/-- A leave never writes the hot cache. -/
theorem handleLeaveRoom_cache (st : ServerState) (c r nid : String)
    (now : Nat) (ok : Bool) :
    (handleLeaveRoom st c r nid now ok).1.cache = st.cache := by
  cases hc : alistFind st.clients c with
  | none => simp [handleLeaveRoom, hc]
  | some client =>
    by_cases h2 : r ∈ client.rooms
    · simp [handleLeaveRoom, hc, h2]
    · simp [handleLeaveRoom, hc, h2]

/-- The registry after a join: unchanged on the failure paths, the
join registry operation on the success path. -/
theorem handleJoinRoom_rc (st : ServerState) (c r nid : String)
    (now : Nat) (ok : Bool) :
    (handleJoinRoom st c r nid now ok).1.roomConsumers = st.roomConsumers ∨
    (handleJoinRoom st c r nid now ok).1.roomConsumers =
      rcAddSub (getOrCreateRoomConsumer st.roomConsumers r) r c := by
  cases hc : alistFind st.clients c with
  | none => left; simp [handleJoinRoom, hc]
  | some client =>
    by_cases h1 : r ∈ st.rooms
    · by_cases h2 : r ∈ client.rooms
      · left; simp [handleJoinRoom, hc, h1, h2]
      · right; simp [handleJoinRoom, hc, h1, h2]
    · left; simp [handleJoinRoom, hc, h1]

/-- The registry after a leave: unchanged on the failure paths, the
leave registry operation otherwise. -/
theorem handleLeaveRoom_rc (st : ServerState) (c r nid : String)
    (now : Nat) (ok : Bool) :
    (handleLeaveRoom st c r nid now ok).1.roomConsumers = st.roomConsumers ∨
    (handleLeaveRoom st c r nid now ok).1.roomConsumers =
      rcRemoveSub st.roomConsumers r c := by
  cases hc : alistFind st.clients c with
  | none => left; simp [handleLeaveRoom, hc]
  | some client =>
    by_cases h2 : r ∈ client.rooms
    · right; simp [handleLeaveRoom, hc, h2]
    · left; simp [handleLeaveRoom, hc, h2]

/-- A chat never touches the consumer registry. -/
theorem handleChatMessage_rc (st : ServerState) (c r content mid : String)
    (now : Nat) (ok : Bool) :
    (handleChatMessage st c r content mid now ok).1.roomConsumers =
      st.roomConsumers := by
  cases hc : alistFind st.clients c with
  | none => simp [handleChatMessage, hc]
  | some client =>
    by_cases h2 : r ∈ client.rooms
    · by_cases ht : trimIsEmpty content
      · simp [handleChatMessage, hc, h2, ht]
      · cases ok <;> simp [handleChatMessage, hc, h2, ht]
    · simp [handleChatMessage, hc, h2]

/-- The hot cache after a chat: unchanged on the failure paths, the
push-front-and-trim write on the success path. -/
theorem handleChatMessage_cache (st : ServerState)
    (c r content mid : String) (now : Nat) (ok : Bool) :
    (handleChatMessage st c r content mid now ok).1.cache = st.cache ∨
    ∃ client, alistFind st.clients c = some client ∧ r ∈ client.rooms ∧
      ok = true ∧ trimIsEmpty content = false ∧
      (handleChatMessage st c r content mid now ok).1.cache =
        alistSet st.cache r
          ((mkChatMsg client r content mid now :: cacheOf st r).take
            MAX_MESSAGES_PER_ROOM) := by
  cases hc : alistFind st.clients c with
  | none => left; simp [handleChatMessage, hc]
  | some client =>
    by_cases h2 : r ∈ client.rooms
    · by_cases ht : trimIsEmpty content
      · left; simp [handleChatMessage, hc, h2, ht]
      · cases ok with
        | false => left; simp [handleChatMessage, hc, h2, ht]
        | true =>
          right
          refine ⟨client, rfl, h2, rfl, by simpa using ht, ?_⟩
          simp [handleChatMessage, hc, h2, ht]
    · left; simp [handleChatMessage, hc, h2]

/-- The per-room leave fold of the disconnect cleanup never writes the
hot cache. -/
theorem foldLeave_cache (l : List String) (st : ServerState)
    (c nb : String) (now : Nat) :
    (l.foldl (fun s r => (handleLeaveRoom s c r (nb ++ r) now true).1)
      st).cache = st.cache := by
  induction l generalizing st with
  | nil => rfl
  | cons r l ih =>
    rw [List.foldl_cons, ih, handleLeaveRoom_cache]

/-- Disconnect cleanup never writes the hot cache. -/
theorem disconnectClient_cache (st : ServerState) (c nb : String)
    (now : Nat) : (disconnectClient st c nb now).cache = st.cache := by
  rw [disconnectClient]
  cases alistFind st.clients c with
  | none => rfl
  | some client => exact foldLeave_cache client.rooms st c nb now

/-- The per-room leave fold of the disconnect cleanup preserves the
registry invariant. -/
theorem regInvR_foldLeave (l : List String) (st : ServerState)
    (c nb : String) (now : Nat) (h : RegistryInv st) :
    RegistryInv
      (l.foldl (fun s r => (handleLeaveRoom s c r (nb ++ r) now true).1)
        st) := by
  induction l generalizing st with
  | nil => exact h
  | cons r l ih =>
    rw [List.foldl_cons]
    apply ih
    rcases handleLeaveRoom_rc st c r (nb ++ r) now true with he | he
    · rw [RegistryInv, he]; exact h
    · rw [RegistryInv, he]; exact regInvR_leaveOp _ r c h

/-! ## C1 — consumer entry iff non-empty subscriber set -/

/-- Every step of the server semantics preserves the registry
invariant. -/
theorem registryInv_step (st : ServerState) (e : Event)
    (h : RegistryInv st) : RegistryInv (stepEvent st e) := by
  cases e with
  | connect c uid uname => exact h
  | disconnect c nb now =>
    rw [stepEvent, disconnectClient]
    cases alistFind st.clients c with
    | none => exact h
    | some client => exact regInvR_foldLeave client.rooms st c nb now h
  | join c r nid now ok =>
    rcases handleJoinRoom_rc st c r nid now ok with he | he
    · rw [stepEvent, RegistryInv, he]; exact h
    · rw [stepEvent, RegistryInv, he]; exact regInvR_joinOp _ r c h
  | leave c r nid now ok =>
    rcases handleLeaveRoom_rc st c r nid now ok with he | he
    · rw [stepEvent, RegistryInv, he]; exact h
    · rw [stepEvent, RegistryInv, he]; exact regInvR_leaveOp _ r c h
  | chat c r content mid now ok =>
    rw [stepEvent, RegistryInv, handleChatMessage_rc]
    exact h
  | mkRoom name uid now =>
    rw [stepEvent, createRoom]
    split
    · exact h
    · dsimp only
      split
      · exact h
      · exact h
  | archive fid =>
    rw [stepEvent, archiveStep]
    cases st.bus with
    | nil => exact h
    | cons m rest => exact h

/-- The registry invariant holds in every reachable state. -/
theorem registryInv_run (es : List Event) : RegistryInv (runEvents es) := by
  rw [runEvents]
  have h0 : RegistryInv initState := ⟨by simp [initState], by simp [initState]⟩
  generalize initState = st at h0 ⊢
  induction es generalizing st with
  | nil => exact h0
  | cons e es ih => exact ih (stepEvent st e) (registryInv_step st e h0)

/-- Under the registry invariant, an entry exists iff its subscriber
set is non-empty. -/
theorem consumer_iff_of_inv (st : ServerState) (h : RegistryInv st)
    (r : String) :
    ((alistFind st.roomConsumers r).isSome ↔ subsOf st r ≠ []) := by
  cases hf : alistFind st.roomConsumers r with
  | none => simp [subsOf, hf]
  | some subs =>
    have hmem : (r, subs) ∈ st.roomConsumers := alistFind_some_mem _ _ _ hf
    have hne : subs ≠ [] := h.1 (r, subs) hmem
    simp [subsOf, hf, hne]

/-- Under duplicate-free keys, the number of entries of a room is one
when an entry exists and zero otherwise. -/
theorem countP_keys (rc : List (String × List String)) (r : String)
    (h2 : (rc.map Prod.fst).Nodup) :
    rc.countP (fun p => p.1 == r) =
      (if (alistFind rc r).isSome then 1 else 0) := by
  induction rc with
  | nil => simp [alistFind]
  | cons p rc ih =>
    rw [List.map_cons, List.nodup_cons] at h2
    obtain ⟨hp, hrc⟩ := h2
    by_cases hpk : (p.1 == r) = true
    · have hr : p.1 = r := by simpa using hpk
      rw [List.countP_cons]
      have hfind : (alistFind (p :: rc) r).isSome = true := by
        simp [alistFind, List.find?, hpk]
      rw [if_pos hfind]
      have hz : rc.countP (fun q => q.1 == r) = 0 := by
        rw [List.countP_eq_zero]
        intro q hq hqr
        have hq1 : q.1 = r := by simpa using hqr
        have h3 : q.1 ∈ rc.map Prod.fst := List.mem_map_of_mem Prod.fst hq
        rw [hq1, ← hr] at h3
        exact hp h3
      rw [hz]
      simp [hpk]
    · rw [List.countP_cons, ih hrc]
      have hfind : alistFind (p :: rc) r = alistFind rc r := by
        simp [alistFind, List.find?, hpk]
      rw [hfind]
      simp [hpk]

/-- C1: in every state reachable by a finite sequence of operations —
joins, leaves, chats, connects, disconnect cleanups, room creations and
archival steps — a room has a consumer entry in `roomConsumers` iff its
subscriber set is non-empty, and it never has more than one entry (a
join on a room with no entry creates exactly one, a leave that empties
the subscriber set removes the entry: both follow since every
post-operation state is again of the form `runEvents es`). -/
theorem consumer_entry_iff_subscribers (es : List Event) (r : String) :
    ((alistFind (runEvents es).roomConsumers r).isSome ↔
       subsOf (runEvents es) r ≠ []) ∧
    (runEvents es).roomConsumers.countP (fun p => p.1 == r) =
      (if (alistFind (runEvents es).roomConsumers r).isSome then 1
       else 0) := by
  have hinv : RegistryInv (runEvents es) := registryInv_run es
  exact ⟨consumer_iff_of_inv _ hinv r, countP_keys _ r hinv.2⟩

/-- Witness for C1 at the concrete trace `trGap` and room `general`:
the entry-iff-nonempty-subscribers equivalence and the at-most-one
entry count, evaluated in the reached state. -/
theorem consumer_entry_iff_subscribers_witness :
    ((alistFind (runEvents trGap).roomConsumers "general").isSome ↔
       subsOf (runEvents trGap) "general" ≠ []) ∧
    (runEvents trGap).roomConsumers.countP (fun p => p.1 == "general") =
      (if (alistFind (runEvents trGap).roomConsumers "general").isSome
       then 1 else 0) :=
  consumer_entry_iff_subscribers trGap "general"

/-! ## Hot-cache invariants (for C8 and C10) -/

theorem mem_alistSet (l : List (String × α)) (k : String) (v : α)
    (p : String × α) (hp : p ∈ alistSet l k v) : p.2 = v ∨ p ∈ l := by
  rw [alistSet] at hp
  split at hp
  · rw [List.mem_map] at hp
    obtain ⟨q, hq, rfl⟩ := hp
    split
    · left; rfl
    · right; exact hq
  · rcases List.mem_append.mp hp with h | h
    · right; exact h
    · left
      simp at h
      rw [h]

theorem mem_sortKeyDesc (key : α → Nat) (l : List α) (x : α) :
    x ∈ sortKeyDesc key l ↔ x ∈ l :=
  (sortKeyDesc_perm key l).mem_iff

theorem mem_tagAll (s : String) (l : List Msg) (tm : TMsg) :
    tm ∈ tagAll s l ↔ ∃ m ∈ l, tm = ⟨m, s⟩ := by
  rw [tagAll, List.mem_map]
  constructor
  · rintro ⟨m, hm, rfl⟩
    exact ⟨m, hm, rfl⟩
  · rintro ⟨m, hm, rfl⟩
    exact ⟨m, hm, rfl⟩

theorem cacheOf_typed (st : ServerState) (h : CacheTyped st) (r : String) :
    ∀ m ∈ cacheOf st r, m.type = "message" := by
  rw [cacheOf]
  cases hf : alistFind st.cache r with
  | none => intro m hm; simp at hm
  | some l =>
    intro m hm
    exact (h (r, l) (alistFind_some_mem _ _ _ hf)).2 m (by simpa using hm)

theorem cacheOf_chrono (st : ServerState) (t : Nat)
    (h : CacheChrono st t) (r : String) :
    (cacheOf st r).Pairwise (fun x y => y.timestamp ≤ x.timestamp) ∧
    ∀ m ∈ cacheOf st r, m.timestamp ≤ t := by
  rw [cacheOf]
  cases hf : alistFind st.cache r with
  | none => simp
  | some l =>
    have := h (r, l) (alistFind_some_mem _ _ _ hf)
    simpa using this

theorem cacheTyped_of_eq {st st2 : ServerState} (h : CacheTyped st)
    (he : st2.cache = st.cache) : CacheTyped st2 := by
  rw [CacheTyped, he]
  exact h

theorem cacheChrono_of_eq {st st2 : ServerState} {t : Nat}
    (h : CacheChrono st t) (he : st2.cache = st.cache) :
    CacheChrono st2 t := by
  rw [CacheChrono, he]
  exact h

theorem cacheChrono_mono (st : ServerState) (t n : Nat)
    (h : CacheChrono st t) (htn : t ≤ n) : CacheChrono st n := by
  intro p hp
  exact ⟨(h p hp).1, fun m hm => le_trans ((h p hp).2 m hm) htn⟩

theorem createRoom_cache (st : ServerState) (name uid : String)
    (now : Nat) : (createRoom st name uid now).1.cache = st.cache := by
  rw [createRoom]
  split
  · rfl
  · dsimp only
    split
    · rfl
    · rfl

theorem archiveStep_cache (st : ServerState) (fid : String) :
    (archiveStep st fid).cache = st.cache := by
  rw [archiveStep]
  cases st.bus with
  | nil => rfl
  | cons m rest => rfl

/-- Every step preserves the clock-free cache invariant: only a
successful chat writes the cache, pushing a `message`-kind record and
trimming to the bound. -/
theorem cacheTyped_step (st : ServerState) (e : Event)
    (h : CacheTyped st) : CacheTyped (stepEvent st e) := by
  cases e with
  | connect c uid uname => exact h
  | disconnect c nb now =>
    exact cacheTyped_of_eq h (disconnectClient_cache st c nb now)
  | join c r nid now ok =>
    exact cacheTyped_of_eq h (handleJoinRoom_cache st c r nid now ok)
  | leave c r nid now ok =>
    exact cacheTyped_of_eq h (handleLeaveRoom_cache st c r nid now ok)
  | mkRoom name uid now =>
    exact cacheTyped_of_eq h (createRoom_cache st name uid now)
  | archive fid => exact cacheTyped_of_eq h (archiveStep_cache st fid)
  | chat c r content mid now ok =>
    rcases handleChatMessage_cache st c r content mid now ok with
      he | ⟨client, _, _, _, _, he⟩
    · exact cacheTyped_of_eq h he
    · intro p hp
      rw [stepEvent, he] at hp
      rcases mem_alistSet _ _ _ p hp with hv | hold
      · rw [hv]
        constructor
        · exact List.length_take_le _ _
        · intro m hm
          have hm2 : m ∈ mkChatMsg client r content mid now ::
              cacheOf st r := List.take_subset _ _ hm
          rcases List.mem_cons.mp hm2 with rfl | hm3
          · rfl
          · exact cacheOf_typed st h r m hm3
      · exact h p hold

/-- A step consuming clock reading `n ≥ t` preserves the chronological
cache invariant at the new bound: the only write pushes a message
timestamped `n` in front of entries bounded by `t`. -/
theorem cacheChrono_step (st : ServerState) (e : Event) (t n : Nat)
    (h : CacheChrono st t) (he : eventTime e = some n) (htn : t ≤ n) :
    CacheChrono (stepEvent st e) n := by
  cases e with
  | connect c uid uname => cases he
  | archive fid => cases he
  | disconnect c nb now =>
    exact cacheChrono_of_eq (cacheChrono_mono st t n h htn)
      (disconnectClient_cache st c nb now)
  | join c r nid now ok =>
    exact cacheChrono_of_eq (cacheChrono_mono st t n h htn)
      (handleJoinRoom_cache st c r nid now ok)
  | leave c r nid now ok =>
    exact cacheChrono_of_eq (cacheChrono_mono st t n h htn)
      (handleLeaveRoom_cache st c r nid now ok)
  | mkRoom name uid now =>
    exact cacheChrono_of_eq (cacheChrono_mono st t n h htn)
      (createRoom_cache st name uid now)
  | chat c r content mid now ok =>
    have hnow : now = n := by
      rw [eventTime] at he
      exact Option.some.inj he
    subst hnow
    rcases handleChatMessage_cache st c r content mid now ok with
      hcc | ⟨client, _, _, _, _, hcc⟩
    · exact cacheChrono_of_eq (cacheChrono_mono st t now h htn) hcc
    · intro p hp
      rw [stepEvent, hcc] at hp
      rcases mem_alistSet _ _ _ p hp with hv | hold
      · rw [hv]
        have hold2 := cacheOf_chrono st t h r
        constructor
        · have hpw : (mkChatMsg client r content mid now ::
              cacheOf st r).Pairwise
              (fun x y => y.timestamp ≤ x.timestamp) := by
            rw [List.pairwise_cons]
            exact ⟨fun m hm => le_trans (hold2.2 m hm) htn, hold2.1⟩
          exact hpw.sublist (List.take_sublist _ _)
        · intro m hm
          have hm2 : m ∈ mkChatMsg client r content mid now ::
              cacheOf st r := List.take_subset _ _ hm
          rcases List.mem_cons.mp hm2 with rfl | hm3
          · exact le_refl _
          · exact le_trans (hold2.2 m hm3) htn
      · exact cacheChrono_mono st t now (fun q hq => h q hq) htn p hold

/-- The clock-free cache invariant holds in every reachable state. -/
theorem cacheTyped_run (es : List Event) : CacheTyped (runEvents es) := by
  rw [runEvents]
  have h0 : CacheTyped initState := by
    intro p hp
    simp [initState] at hp
  generalize initState = st at h0 ⊢
  induction es generalizing st with
  | nil => exact h0
  | cons e es ih => exact ih (stepEvent st e) (cacheTyped_step st e h0)

/-- The chronological cache invariant holds, at some bound, in every
state reached along a clock-monotone trace. -/
theorem cacheChrono_run (es : List Event) (st : ServerState) (t : Nat)
    (h : CacheChrono st t) (hm : TraceMono t es) :
    ∃ u, CacheChrono (es.foldl stepEvent st) u := by
  induction es generalizing st t with
  | nil => exact ⟨t, h⟩
  | cons e es ih =>
    rw [TraceMono] at hm
    cases he : eventTime e with
    | none =>
      rw [he] at hm
      rw [List.foldl_cons]
      refine ih (stepEvent st e) t ?_ hm
      cases e with
      | connect c uid uname => exact h
      | archive fid => exact cacheChrono_of_eq h (archiveStep_cache st fid)
      | disconnect c nb now => cases he
      | join c r nid now ok => cases he
      | leave c r nid now ok => cases he
      | chat c r content mid now ok => cases he
      | mkRoom name uid now => cases he
    | some n =>
      rw [he] at hm
      rw [List.foldl_cons]
      exact ih (stepEvent st e) n (cacheChrono_step st e t n h he hm.1)
        hm.2

/-! ## C8 — hot cache bounded, ordered, push-front-and-trim -/

/-- C8: along every clock-monotone trace, each room's hot cache holds
at most `MAX_MESSAGES_PER_ROOM` (50) messages in reverse-chronological
order; and every accepted send writes exactly the push-front-and-trim
of the previous cache list. -/
theorem hot_cache_bounded_ordered_trimmed (es : List Event)
    (hm : TraceMono 0 es) :
    (∀ p ∈ (runEvents es).cache,
       p.2.length ≤ MAX_MESSAGES_PER_ROOM ∧
       p.2.Pairwise (fun x y => y.timestamp ≤ x.timestamp)) ∧
    (∀ (st : ServerState) (c r content mid : String) (now : Nat)
       (client : Client),
       alistFind st.clients c = some client → r ∈ client.rooms →
       trimIsEmpty content = false →
       (handleChatMessage st c r content mid now true).1.cache =
         alistSet st.cache r
           ((mkChatMsg client r content mid now :: cacheOf st r).take
             MAX_MESSAGES_PER_ROOM)) := by
  constructor
  · have h0 : CacheChrono initState 0 := by
      intro p hp
      simp [initState] at hp
    obtain ⟨u, hu⟩ := cacheChrono_run es initState 0 h0 hm
    intro p hp
    refine ⟨(cacheTyped_run es p hp).1, ?_⟩
    exact (hu p hp).1
  · intro st c r content mid now client hc hj ht
    simp [handleChatMessage, hc, hj, ht]

/-- Witness for C8: the trace `trTie` is clock-monotone, and in its
final state every cached room list is within the bound and ordered. -/
theorem hot_cache_bounded_ordered_trimmed_witness :
    TraceMono 0 trTie ∧
    (∀ p ∈ (runEvents trTie).cache,
       p.2.length ≤ MAX_MESSAGES_PER_ROOM ∧
       p.2.Pairwise (fun x y => y.timestamp ≤ x.timestamp)) ∧
    (handleChatMessage stChat "c" "general" "hi" "m9" 6 true).1.cache =
      alistSet stChat.cache "general"
        ((mkChatMsg ⟨"u1", "Ann", ["general"]⟩ "general" "hi" "m9" 6 ::
            cacheOf stChat "general").take MAX_MESSAGES_PER_ROOM) :=
  ⟨by decide, (hot_cache_bounded_ordered_trimmed trTie (by decide)).1,
   (hot_cache_bounded_ordered_trimmed trTie (by decide)).2 stChat "c"
     "general" "hi" "m9" 6 ⟨"u1", "Ann", ["general"]⟩ (by decide)
     (by decide) (by decide)⟩

/-! ## C10 — system notices never touch the hot cache -/

/-- C10: join and leave operations leave the hot cache of every room
unchanged (their system notices go to the bus only); in every reachable
state the cache holds only `message`-kind records; hence a redis-mode
(cache-tier) history read never returns a system notice — archived or
not. -/
theorem system_notices_bypass_cache (es : List Event) (c r nid : String)
    (now : Nat) (ok : Bool) (limitQ : Option Nat) :
    (stepEvent (runEvents es) (.join c r nid now ok)).cache =
      (runEvents es).cache ∧
    (stepEvent (runEvents es) (.leave c r nid now ok)).cache =
      (runEvents es).cache ∧
    (∀ p ∈ (runEvents es).cache, ∀ m ∈ p.2, m.type = "message") ∧
    (∀ tm ∈ (historyRead (cacheOf (runEvents es) r) (runEvents es).store r
        limitQ none none (some "redis")).messages,
      tm.m.type = "message") := by
  refine ⟨handleJoinRoom_cache _ c r nid now ok,
          handleLeaveRoom_cache _ c r nid now ok,
          fun p hp => (cacheTyped_run es p hp).2, ?_⟩
  intro tm htm
  simp only [historyRead] at htm
  have h1 := (mem_sortKeyDesc (fun tm => tm.m.timestamp) _ tm).mp htm
  simp [historyMessages] at h1
  have h2 := (mem_sortKeyDesc (fun tm => tm.m.timestamp) _ tm).mp h1
  obtain ⟨m, hm, rfl⟩ := (mem_tagAll _ _ tm).mp h2
  exact cacheOf_typed _ (cacheTyped_run es) r m (List.take_subset _ _ hm)

/-- Witness for C10 at the trace `trGap`: a further join and leave
leave the cache untouched, and the cached entries and the redis-mode
page hold only `message`-kind records. -/
theorem system_notices_bypass_cache_witness :
    (stepEvent (runEvents trGap)
        (.join "d" "general" "n9" 40 true)).cache =
      (runEvents trGap).cache ∧
    (stepEvent (runEvents trGap)
        (.leave "d" "general" "n9" 40 true)).cache =
      (runEvents trGap).cache ∧
    (∀ p ∈ (runEvents trGap).cache, ∀ m ∈ p.2, m.type = "message") ∧
    (∀ tm ∈ (historyRead (cacheOf (runEvents trGap) "general")
        (runEvents trGap).store "general" (some 3) none none
        (some "redis")).messages, tm.m.type = "message") :=
  system_notices_bypass_cache trGap "d" "general" "n9" 40 true (some 3)

/-! ## C3 — history ordering and pagination metadata -/

/-- C3 counterexample: a reachable hot cache with two timestamp ties in
opposite id orders (uuids are not ordered by creation time).  The
redis-mode read of `trTie` returns `[q, a, d, z]` with timestamps
`[20, 20, 10, 10]`: the final sort (server.js line 365) compares
timestamps only and is stable, so the tie `(q, a)` stays id-descending
while the tie `(d, z)` stays id-ascending — the page satisfies no id
tie-break, refuting the claimed `(timestamp desc, id)` ordering. -/
theorem history_no_id_tiebreak_cex :
    (historyRead (cacheOf (runEvents trTie) "general")
        (runEvents trTie).store "general" none none none
        (some "redis")).messages.map (fun tm => (tm.m.id, tm.m.timestamp)) =
      [("q", 20), ("a", 20), ("d", 10), ("z", 10)] ∧
    ¬ tsIdSortedAsc (historyRead (cacheOf (runEvents trTie) "general")
        (runEvents trTie).store "general" none none none
        (some "redis")).messages ∧
    ¬ tsIdSortedDesc (historyRead (cacheOf (runEvents trTie) "general")
        (runEvents trTie).store "general" none none none
        (some "redis")).messages := by
  decide

/-- C3 amended: every read of the history endpoint returns a page
sorted by timestamp descending — ties keep their pre-sort relative
order (the comparator at server.js line 365 inspects only timestamps;
there is no id tie-break) — and pagination metadata with `count` the
number returned, `hasMore` exactly when the count equals the parsed
limit, and `oldest` / `newest` the attained minimum / maximum
timestamps of the page (null for an empty page). -/
theorem history_sorted_and_pagination (cache store : List Msg)
    (roomId : String) (limitQ beforeQ afterQ : Option Nat)
    (src : Option String) :
    (historyRead cache store roomId limitQ beforeQ afterQ
        src).messages.Pairwise
      (fun x y => y.m.timestamp ≤ x.m.timestamp) ∧
    (historyRead cache store roomId limitQ beforeQ afterQ
        src).pagination.count =
      (historyRead cache store roomId limitQ beforeQ afterQ
        src).messages.length ∧
    ((historyRead cache store roomId limitQ beforeQ afterQ
        src).pagination.hasMore = true ↔
      (historyRead cache store roomId limitQ beforeQ afterQ
        src).messages.length = parsedLimit limitQ) ∧
    (∀ o, (historyRead cache store roomId limitQ beforeQ afterQ
        src).pagination.oldest = some o →
      (∃ tm ∈ (historyRead cache store roomId limitQ beforeQ afterQ
          src).messages, tm.m.timestamp = o) ∧
      ∀ tm ∈ (historyRead cache store roomId limitQ beforeQ afterQ
          src).messages, o ≤ tm.m.timestamp) ∧
    (∀ o, (historyRead cache store roomId limitQ beforeQ afterQ
        src).pagination.newest = some o →
      (∃ tm ∈ (historyRead cache store roomId limitQ beforeQ afterQ
          src).messages, tm.m.timestamp = o) ∧
      ∀ tm ∈ (historyRead cache store roomId limitQ beforeQ afterQ
          src).messages, tm.m.timestamp ≤ o) ∧
    ((historyRead cache store roomId limitQ beforeQ afterQ
        src).pagination.oldest = none ↔
      (historyRead cache store roomId limitQ beforeQ afterQ
        src).messages = []) := by
  refine ⟨pairwise_sortKeyDesc _ _, rfl, decide_eq_true_iff, ?_, ?_,
    minKey_eq_none _ _⟩
  · intro o ho
    exact ⟨minKey_mem _ _ o ho, minKey_le _ _ o ho⟩
  · intro o ho
    exact ⟨maxKey_mem _ _ o ho, maxKey_ge _ _ o ho⟩

/-- Witness for C3 (amended) at the redis-mode read of `trTie`: the
page is sorted by timestamp descending, its oldest timestamp 10 and
newest timestamp 20 are attained bounds. -/
theorem history_sorted_and_pagination_witness :
    (historyRead (cacheOf (runEvents trTie) "general")
        (runEvents trTie).store "general" none none none
        (some "redis")).messages.Pairwise
      (fun x y => y.m.timestamp ≤ x.m.timestamp) ∧
    ((∃ tm ∈ (historyRead (cacheOf (runEvents trTie) "general")
        (runEvents trTie).store "general" none none none
        (some "redis")).messages, tm.m.timestamp = 10) ∧
      ∀ tm ∈ (historyRead (cacheOf (runEvents trTie) "general")
        (runEvents trTie).store "general" none none none
        (some "redis")).messages, 10 ≤ tm.m.timestamp) ∧
    ((∃ tm ∈ (historyRead (cacheOf (runEvents trTie) "general")
        (runEvents trTie).store "general" none none none
        (some "redis")).messages, tm.m.timestamp = 20) ∧
      ∀ tm ∈ (historyRead (cacheOf (runEvents trTie) "general")
        (runEvents trTie).store "general" none none none
        (some "redis")).messages, tm.m.timestamp ≤ 20) := by
  have h := history_sorted_and_pagination
    (cacheOf (runEvents trTie) "general") (runEvents trTie).store
    "general" none none none (some "redis")
  exact ⟨h.1, h.2.2.2.1 10 (by decide), h.2.2.2.2.1 20 (by decide)⟩

/-! ## C2 — the hot/archive boundary of the combined read -/

theorem tagAll_length (s : String) (l : List Msg) :
    (tagAll s l).length = l.length := by
  rw [tagAll, List.length_map]

theorem tagAll_getLast (s : String) (l : List Msg) :
    (tagAll s l).getLast? = l.getLast?.map (fun m => ⟨m, s⟩) := by
  rw [tagAll, List.getLast?_map]

theorem tagAll_map_id (s : String) (l : List Msg) :
    (tagAll s l).map (fun tm => tm.m.id) = l.map Msg.id := by
  rw [tagAll, List.map_map]
  rfl

theorem mongoFind_subset (store : List Msg) (pred : Msg → Bool) (n : Nat) :
    ∀ m ∈ mongoFind store pred n, m ∈ store.filter pred := by
  intro m hm
  rw [mongoFind] at hm
  exact (mem_sortKeyDesc _ _ m).mp (List.take_subset _ _ hm)

/-- In a list sorted descending by `key`, the last element has the
minimal key. -/
theorem getLast_min (key : α → Nat) (l : List α)
    (h : l.Pairwise (fun x y => key y ≤ key x)) (hne : l ≠ []) :
    ∀ x ∈ l, key (l.getLast hne) ≤ key x := by
  induction l with
  | nil => cases hne rfl
  | cons a l ih =>
    intro x hx
    rw [List.pairwise_cons] at h
    obtain ⟨ha, htail⟩ := h
    cases l with
    | nil =>
      rcases List.mem_cons.mp hx with rfl | h2
      · exact le_refl _
      · simp at h2
    | cons b l2 =>
      have hlast : (a :: b :: l2).getLast hne =
          (b :: l2).getLast (by simp) := by
        rw [List.getLast_cons]
      rcases List.mem_cons.mp hx with rfl | h2
      · rw [hlast]
        exact ha _ (List.getLast_mem _)
      · rw [hlast]
        exact ih htail (by simp) x h2

/-- The combined default read with no cursor, on a non-empty cache that
holds fewer than `limit` messages (server.js lines 331-349): the full
cache, concatenated with the archive messages of the room strictly
older than the last (oldest) cache entry, up to the remaining count. -/
theorem historyMessages_combined (cache store : List Msg)
    (roomId : String) (pl : Nat) (pa : Option Nat) (hne : cache ≠ [])
    (hlt : cache.length < pl) :
    historyMessages cache store roomId pl none pa none =
      tagAll "redis" cache ++
      tagAll "mongodb"
        (mongoFind store
          (fun m => m.roomId == roomId &&
            decide (m.timestamp < (cache.getLast hne).timestamp))
          (pl - cache.length)) := by
  have htake : cache.take pl = cache := List.take_of_length_le (le_of_lt hlt)
  rw [historyMessages, if_neg (by simp), if_neg (by simp)]
  dsimp only
  rw [htake]
  rw [if_neg (by rw [tagAll_length]; omega)]
  rw [tagAll_getLast, List.getLast?_eq_getLast cache hne]
  dsimp only [Option.map]
  rw [tagAll_length]

/-- C2 amended: for a combined-mode read (no source, no before cursor)
on a non-empty cache holding fewer than `limit` entries — with the
cache in reverse-chronological order, per-tier message ids
duplicate-free, and any id present in both tiers carrying the same
timestamp (all reachable-state invariants) — (i) the archive portion of
the page consists only of messages strictly older than the oldest
returned cache entry, (ii) the page contains no message id twice, and
(iii) the page has no gap BELOW the hot tier: every stored message of
the room strictly between the page's oldest timestamp and the oldest
cache entry appears in the page.  (A stored message whose timestamp
falls inside the hot range need NOT appear — see the counterexample.) -/
theorem combined_read_boundary (cache store : List Msg) (roomId : String)
    (limitQ afterQ : Option Nat)
    (hne : cache ≠ [])
    (hlt : cache.length < parsedLimit limitQ)
    (hsorted : cache.Pairwise (fun x y => y.timestamp ≤ x.timestamp))
    (hcid : (cache.map Msg.id).Nodup)
    (hsid : ((store.filter (fun m => m.roomId == roomId)).map
      Msg.id).Nodup)
    (hcross : ∀ m ∈ cache, ∀ m2 ∈ store, m.id = m2.id →
      m.timestamp = m2.timestamp) :
    (∀ tm ∈ (historyRead cache store roomId limitQ none afterQ
        none).messages, tm.src = "mongodb" →
      tm.m.timestamp < (cache.getLast hne).timestamp) ∧
    ((historyRead cache store roomId limitQ none afterQ none).messages.map
      (fun tm => tm.m.id)).Nodup ∧
    (∀ o, (historyRead cache store roomId limitQ none afterQ
        none).pagination.oldest = some o →
      ∀ m ∈ store, m.roomId = roomId →
        m.timestamp < (cache.getLast hne).timestamp → o < m.timestamp →
        ∃ tm ∈ (historyRead cache store roomId limitQ none afterQ
          none).messages, tm.m = m) := by
  have hcomb := historyMessages_combined cache store roomId
    (parsedLimit limitQ) (parsedCursor afterQ) hne hlt
  set cutoff := (cache.getLast hne).timestamp with hcut
  set predC : Msg → Bool :=
    fun m => m.roomId == roomId && decide (m.timestamp < cutoff)
    with hpredC
  set arch := mongoFind store predC (parsedLimit limitQ - cache.length)
    with harch
  set msgs := tagAll "redis" cache ++ tagAll "mongodb" arch with hmsgsdef
  have hres : (historyRead cache store roomId limitQ none afterQ
      none).messages =
      sortKeyDesc (fun tm => tm.m.timestamp) msgs := by
    simp only [historyRead]
    rw [show parsedCursor none = none from rfl, hcomb]
  have holdeq : (historyRead cache store roomId limitQ none afterQ
      none).pagination.oldest =
      minKey (fun tm => tm.m.timestamp)
        (sortKeyDesc (fun tm => tm.m.timestamp) msgs) := by
    simp only [historyRead]
    rw [show parsedCursor none = none from rfl, hcomb]
  have hcacheMin : ∀ x ∈ cache, cutoff ≤ x.timestamp :=
    getLast_min Msg.timestamp cache hsorted hne
  have hArchFilter : ∀ m ∈ arch, m.roomId = roomId ∧
      m.timestamp < cutoff := by
    intro m hm
    have h2 := (List.mem_filter.mp
      (mongoFind_subset store predC _ m hm)).2
    rw [hpredC] at h2
    simpa using h2
  refine ⟨?_, ?_, ?_⟩
  · -- (i) archive entries are strictly older than the oldest hot entry
    intro tm htm hsrc
    rw [hres] at htm
    have h1 := (mem_sortKeyDesc _ _ tm).mp htm
    rcases List.mem_append.mp h1 with hr | ha
    · obtain ⟨m, _, rfl⟩ := (mem_tagAll _ _ tm).mp hr
      have hrm : ("redis" : String) ≠ "mongodb" := by decide
      exact absurd hsrc hrm
    · obtain ⟨m, hm, rfl⟩ := (mem_tagAll _ _ tm).mp ha
      exact (hArchFilter m hm).2
  · -- (ii) no duplicate ids across the page
    rw [hres]
    rw [((sortKeyDesc_perm (fun tm => tm.m.timestamp) msgs).map
      (fun tm => tm.m.id)).nodup_iff]
    rw [hmsgsdef, List.map_append, tagAll_map_id, tagAll_map_id,
      List.nodup_append]
    have hSsub : (store.filter predC).Sublist
        (store.filter (fun m => m.roomId == roomId)) := by
      have he : store.filter predC =
          (store.filter (fun m => m.roomId == roomId)).filter
            (fun m => decide (m.timestamp < cutoff)) := by
        rw [List.filter_filter]
        apply List.filter_congr
        intro a _
        rw [hpredC]
        exact (Bool.and_comm _ _).symm
      rw [he]
      exact List.filter_sublist _
    refine ⟨hcid, ?_, ?_⟩
    · have hSid : ((store.filter predC).map Msg.id).Nodup :=
        (hSsub.map Msg.id).nodup hsid
      rw [harch, mongoFind]
      have hsortid : ((sortKeyDesc Msg.timestamp
          (store.filter predC)).map Msg.id).Nodup := by
        rw [((sortKeyDesc_perm Msg.timestamp
          (store.filter predC)).map Msg.id).nodup_iff]
        exact hSid
      exact ((List.take_sublist _ _).map Msg.id).nodup hsortid
    · intro a hac harcha
      rw [List.mem_map] at hac harcha
      obtain ⟨m1, hm1, rfl⟩ := hac
      obtain ⟨m2, hm2, hid⟩ := harcha
      have hts := hcross m1 hm1 m2
        (List.mem_of_mem_filter (mongoFind_subset store predC _ m2 hm2))
        hid.symm
      have h2 := (hArchFilter m2 hm2).2
      have h3 := hcacheMin m1 hm1
      omega
  · -- (iii) no gap strictly below the hot tier
    intro o ho m hm hroom hts hgt
    rw [holdeq] at ho
    by_contra hnotin
    push_neg at hnotin
    have hmemres : ∀ tm, tm ∈ sortKeyDesc (fun tm => tm.m.timestamp)
        msgs → tm.m ≠ m := by
      intro tm htm
      exact hnotin tm (by rw [hres]; exact htm)
    have hmS : m ∈ store.filter predC := by
      rw [List.mem_filter]
      refine ⟨hm, ?_⟩
      rw [hpredC]
      simp [hroom, hts]
    have hmS2 : m ∈ sortKeyDesc Msg.timestamp (store.filter predC) :=
      (mem_sortKeyDesc _ _ m).mpr hmS
    have hmarch : m ∉ arch := by
      intro hin
      exact hmemres ⟨m, "mongodb"⟩
        ((mem_sortKeyDesc _ _ _).mpr
          (List.mem_append_right _ ((mem_tagAll _ _ _).mpr
            ⟨m, hin, rfl⟩)))
        rfl
    have hmtake : m ∉ (sortKeyDesc Msg.timestamp
        (store.filter predC)).take (parsedLimit limitQ - cache.length) := by
      rw [harch, mongoFind] at hmarch
      exact hmarch
    have hmdrop : m ∈ (sortKeyDesc Msg.timestamp
        (store.filter predC)).drop (parsedLimit limitQ - cache.length) := by
      have hin : m ∈ (sortKeyDesc Msg.timestamp
          (store.filter predC)).take (parsedLimit limitQ - cache.length) ++
          (sortKeyDesc Msg.timestamp (store.filter predC)).drop
            (parsedLimit limitQ - cache.length) := by
        rw [List.take_append_drop]
        exact hmS2
      rcases List.mem_append.mp hin with h | h
      · exact absurd h hmtake
      · exact h
    obtain ⟨tm0, htm0, htm0ts⟩ := minKey_mem _ _ o ho
    have htm0msgs := (mem_sortKeyDesc _ _ tm0).mp htm0
    rcases List.mem_append.mp htm0msgs with hr | ha
    · obtain ⟨m1, hm1, rfl⟩ := (mem_tagAll _ _ tm0).mp hr
      have h4 := hcacheMin m1 hm1
      have h5 : m1.timestamp = o := htm0ts
      omega
    · obtain ⟨m2, hm2, rfl⟩ := (mem_tagAll _ _ tm0).mp ha
      have hpwsplit : ((sortKeyDesc Msg.timestamp
          (store.filter predC)).take (parsedLimit limitQ - cache.length) ++
          (sortKeyDesc Msg.timestamp (store.filter predC)).drop
            (parsedLimit limitQ - cache.length)).Pairwise
          (fun x y => y.timestamp ≤ x.timestamp) := by
        rw [List.take_append_drop]
        exact pairwise_sortKeyDesc _ _
      have h3 := (List.pairwise_append.mp hpwsplit).2.2
      have hm2take : m2 ∈ (sortKeyDesc Msg.timestamp
          (store.filter predC)).take (parsedLimit limitQ - cache.length) := by
        rw [harch, mongoFind] at hm2
        exact hm2
      have h6 := h3 m2 hm2take m hmdrop
      have h5 : m2.timestamp = o := htm0ts
      omega

/-- C2 counterexample: after the reachable trace `trGap`, the store
holds the system notice `s1` of room `general` with timestamp 20, and
the combined-mode read (limit 3, no cursor) returns a page whose oldest
and newest timestamps are 5 and 30 — yet no page entry has id `s1`.  A
stored message of the room with a timestamp between the page's oldest
and newest entries is missing from the page, refuting the claimed
absence of gaps: the archive query only fetches below the oldest cache
entry (timestamp 10), and the notice was never cached. -/
theorem combined_read_gap_cex :
    (∃ m ∈ (runEvents trGap).store,
      m.id = "s1" ∧ m.roomId = "general" ∧ m.type = "system" ∧
      m.timestamp = 20) ∧
    "general" ∈ (runEvents trGap).rooms ∧
    (historyRead (cacheOf (runEvents trGap) "general")
        (runEvents trGap).store "general" (some 3) none none
        none).pagination.oldest = some 5 ∧
    (historyRead (cacheOf (runEvents trGap) "general")
        (runEvents trGap).store "general" (some 3) none none
        none).pagination.newest = some 30 ∧
    (∀ tm ∈ (historyRead (cacheOf (runEvents trGap) "general")
        (runEvents trGap).store "general" (some 3) none none
        none).messages, tm.m.id ≠ "s1") := by
  decide

/-- Witness for C2 (amended) at `cacheW` / `storeW` with limit 4: the
archive entry `x2` (timestamp 8) is strictly older than the oldest
cache entry (timestamp 20), the page ids are duplicate-free, and the
stored message `x2`, lying strictly between the page's oldest
timestamp 5 and the cache cutoff 20, appears in the page. -/
theorem combined_read_boundary_witness :
    ((⟨storeW.get ⟨1, by decide⟩, "mongodb"⟩ : TMsg) ∈
        (historyRead cacheW storeW "general" (some 4) none none
          none).messages →
      (storeW.get ⟨1, by decide⟩).timestamp <
        (cacheW.getLast (by decide)).timestamp) ∧
    ((historyRead cacheW storeW "general" (some 4) none none
        none).messages.map (fun tm => tm.m.id)).Nodup ∧
    (∃ tm ∈ (historyRead cacheW storeW "general" (some 4) none none
        none).messages, tm.m = storeW.get ⟨1, by decide⟩) := by
  have h := combined_read_boundary cacheW storeW "general" (some 4) none
    (by decide) (by decide) (by decide) (by decide) (by decide)
    (by decide)
  refine ⟨?_, h.2.1, ?_⟩
  · intro hmem
    exact h.1 _ hmem rfl
  · exact h.2.2 5 (by decide) (storeW.get ⟨1, by decide⟩) (by decide)
      (by decide) (by decide) (by decide)

end ChatApp
